import Mathlib

/-!
Verification development for the video assembly and transition-compositing
engine of the EinsteinCoder pipeline.

The Python source is shallowly embedded below:

* durations and pixel dimensions are modelled as rationals (`ℚ`), i.e. the
  idealized exact arithmetic of the ffmpeg operations the code invokes;
* fallible operations return `Option`;
* the outcome of an external `ffprobe`/`ffmpeg` call that the Python code
  branches on (return code, stdout) is passed in explicitly, so every branch
  of the source is reachable in the model.

Source files embedded: `utils/video_utils.py`, `utils/ffmpeg_utils.py`,
`media_processing/video_editor.py`, `pipeline.py`, `models.py`.
-/

namespace VideoCore

/-! Media Prober: `get_video_duration` / `get_video_dimensions`

`utils/video_utils.py` lines 20-40 and `utils/ffmpeg_utils.py` lines 15-35.
Both functions run `ffprobe` through `run_shell_command` with
`check_error=False` (which returns `(stdout, stderr, returncode)` without
raising on a nonzero return code) and then parse the stripped stdout,
catching `ValueError`.  The possible situations the Python code branches on
are: the file does not exist (`os.path.exists` guard, duration probe only),
`ffprobe` exits nonzero, or `ffprobe` succeeds and printed some stdout. -/

/-- Outcome of one `ffprobe` invocation as seen by the Python caller. -/
inductive ProbeOutcome where
  | missing
  | cmdFail
  | output (stdout : String)
deriving DecidableEq

/-- Value of a decimal digit character, `none` on a non-digit.  Models the
per-character acceptance of Python's `int()` / `float()` on ASCII digits. -/
def digitVal? (c : Char) : Option ℕ :=
  if c.isDigit then some (c.toNat - 48) else none

/-- Accumulate decimal digits; any non-digit character makes the whole
parse fail, as `int()` raises `ValueError`. -/
def parseDigitsAux : List Char → ℕ → Option ℕ
  | [], acc => some acc
  | c :: cs, acc =>
    match digitVal? c with
    | some d => parseDigitsAux cs (10 * acc + d)
    | none => none

/-- Parse a nonempty all-digit string to a natural number. -/
def parseDigits? (cs : List Char) : Option ℕ :=
  if cs.isEmpty then none else parseDigitsAux cs 0

/-- Split a character list on a separator character (structural recursion,
mirroring Python's `str.split`). -/
def splitOnChar (sep : Char) : List Char → List (List Char)
  | [] => [[]]
  | c :: cs =>
    let r := splitOnChar sep cs
    if c = sep then [] :: r
    else
      match r with
      | [] => [[c]]
      | g :: gs => (c :: g) :: gs

/-- Model of Python `int(s)` on the dimension tokens: optional leading
minus sign followed by decimal digits. -/
def parseInt? (cs : List Char) : Option ℤ :=
  match cs with
  | '-' :: rest => (parseDigits? rest).map (fun n => -(n : ℤ))
  | _ => (parseDigits? cs).map (fun n => (n : ℤ))

/-- Model of Python `float(s)` on ffprobe duration output, covering the
plain decimal forms ffprobe emits: optional minus sign, integer part,
optional fractional part.  Any other text fails, as `float()` raises
`ValueError` (caught by the source, which then returns `None`). -/
def parseFloat? (cs : List Char) : Option ℚ :=
  let signed : ℚ → ℚ :=
    match cs with
    | '-' :: _ => fun q => -q
    | _ => id
  let body := match cs with
    | '-' :: rest => rest
    | _ => cs
  match splitOnChar '.' body with
  | [intPart] => (parseDigits? intPart).map (fun n => signed (n : ℚ))
  | [intPart, fracPart] =>
    match parseDigits? intPart, parseDigits? fracPart with
    | some n, some f =>
      some (signed ((n : ℚ) + (f : ℚ) / (10 : ℚ) ^ fracPart.length))
    | _, _ => none
  | _ => none

/-- Embedding of `get_video_duration` (`utils/video_utils.py` 20-40): returns `None`
when the file is missing, when `ffprobe` fails, or when its stdout does not
parse as a float; otherwise the parsed duration. -/
def get_video_duration : ProbeOutcome → Option ℚ
  | .missing => none
  | .cmdFail => none
  | .output s => parseFloat? s.data

/-- Parse `"WxH"` into two integers: Python does
`width, height = map(int, s.split('x'))` and catches `ValueError`, which is
raised both on a non-integer token and on an unpack of anything but exactly
two parts. -/
def parseDims? (cs : List Char) : Option (ℤ × ℤ) :=
  match splitOnChar 'x' cs with
  | [a, b] =>
    match parseInt? a, parseInt? b with
    | some w, some h => some (w, h)
    | _, _ => none
  | _ => none

/-- Embedding of `get_video_dimensions` (`utils/ffmpeg_utils.py` 15-35): no existence
guard, so a missing file surfaces as a nonzero `ffprobe` return code; any
failure or unparseable stdout yields `None`. -/
def get_video_dimensions : ProbeOutcome → Option (ℤ × ℤ)
  | .missing => none
  | .cmdFail => none
  | .output s => parseDims? s.data

/-! Transition mode enum (`models.py` 27-31) -/

/-- The `VideoTransitionMode` enum from `models.py`; `value` is the Python
`str`-enum payload. -/
inductive VideoTransitionMode where
  | FADE
  | CROSSFADE
  | SLIDE
  | NONE
deriving DecidableEq

/-- The `.value` string of each enum member. -/
def VideoTransitionMode.value : VideoTransitionMode → String
  | .FADE => "Fade"
  | .CROSSFADE => "Crossfade"
  | .SLIDE => "Slide"
  | .NONE => "None"

/-! Embedding of `concatenate_videos` (`utils/ffmpeg_utils.py` 37-191)

The duration/timeline semantics of `concatenate_videos`.  The per-clip
scale/crop stage re-encodes each clip without changing its duration, so the
model's input is the list of (scaled) clip durations.  Loop extension
(lines 104-135) and branch selection on the `transition` string
(lines 144-172) are modelled faithfully; the external `ffmpeg` loop
command's success, which the source branches on at line 129
("Proceeding without looping" on failure), is the `loopOk` argument. -/

/-- Python `num_loops = math.ceil(remaining_duration / last_clip_duration)`
(line 117). -/
def num_loops (remaining last : ℚ) : ℤ := ⌈remaining / last⌉

/-- The looped tail clip appended when the summed duration falls short of
the target (lines 104-135): the last clip is replayed
`num_loops` times (`-stream_loop (num_loops - 1)`) and the result trimmed
with `-t remaining_duration`, so its duration is
`min (num_loops * last) remaining`.  No clip is produced when the total
already reaches the target, when the list is empty, or when the re-probed
last-clip duration is not positive (line 116). -/
def loopExtension (durations : List ℚ) (target : ℚ) : List ℚ :=
  let total := durations.sum
  if total < target then
    match durations.getLast? with
    | some last =>
      if 0 < last then
        let remaining := target - total
        [min ((num_loops remaining last : ℚ) * last) remaining]
      else []
    | none => []
  else []

/-- The two concat command shapes (lines 145-172): `transition == 'none'`
stream-copies; every other string re-encodes with libx264.  Both read the
same sequential concat list. -/
inductive ConcatBranch where
  | streamCopy
  | reencode
deriving DecidableEq

/-- Branch selection: `if transition == 'none':` (line 145), an exact,
case-sensitive string comparison. -/
def concatBranch (transition : String) : ConcatBranch :=
  if transition = "none" then .streamCopy else .reencode

/-- Duration of the output of `concatenate_videos` on clip durations
`durations`: `none` when no clips are given (lines 54-56 / 65-67), else
the sum of the final concat list — original clips plus the looped tail
when the loop step ran and its `ffmpeg` call succeeded.  Both transition
branches concatenate the same list sequentially; they differ only in
codec settings. -/
def concatenate_videos (durations : List ℚ) (target : ℚ)
    (transition : String) (loopOk : Bool) : Option ℚ :=
  if durations.isEmpty then none
  else
    let ext := if loopOk then loopExtension durations target else []
    let clips := durations ++ ext
    match concatBranch transition with
    | .streamCopy => some clips.sum
    | .reencode => some clips.sum

/-! Embedding of `VideoEditor.assemble_base_video` (`media_processing/video_editor.py` 242-306)

The editor resolves the target resolution, calls `concatenate_videos` with
`transition=transition_mode.value` (the capitalized enum payload, line 278),
and then applies a duration-correction step (lines 286-306): when the
probed duration differs from the target by more than 1.0s it re-runs
`ffmpeg -ss 0 -t target -c copy`, keeping the original output if that
command fails (`trimOk`).  A stream-copy trim truncates a longer input to
the requested length but leaves a shorter input unchanged — it never
extends. -/

/-- Output duration of `ffmpeg -ss 0 -t t -c copy` on an input of duration
`actual` (video_editor.py 294-297). -/
def trim_to (actual t : ℚ) : ℚ := min actual t

/-- The duration-correction step at the end of `assemble_base_video`
(video_editor.py 286-306).  `trimOk` is the return code of the trim
command; on failure the code keeps the uncorrected output (line 303-304). -/
def enforce_target_duration (actual target : ℚ) (trimOk : Bool) : ℚ :=
  if 1 < |actual - target| then
    if trimOk then trim_to actual target else actual
  else actual

/-- Duration semantics of `VideoEditor.assemble_base_video`: concatenate,
then correct the duration.  (The branch where the post-concat duration
probe fails, lines 287-289, returns the output unverified and is not
modelled: the theorems below describe runs where the probe succeeds.) -/
def assemble_base_video (durations : List ℚ) (target : ℚ)
    (transitionMode : VideoTransitionMode) (loopOk trimOk : Bool) : Option ℚ :=
  match concatenate_videos durations target transitionMode.value loopOk with
  | none => none
  | some actual => some (enforce_target_duration actual target trimOk)

/-! Clip scaling geometry (`utils/ffmpeg_utils.py` 77-97)

The per-clip filter is
`scale='min(TW,iw)':'min(TH,ih)':force_original_aspect_ratio=decrease,`
`pad=TW:TH:(ow-iw)/2:(oh-ih)/2`.
The scale stage requests the box `min(TW,iw) × min(TH,ih)` and
`force_original_aspect_ratio=decrease` shrinks that request to the largest
size that fits inside it while keeping the input's aspect ratio; the pad
stage then extends the canvas to exactly `TW × TH`, centering the scaled
picture (black bars fill the remainder).  Dimensions are modelled as exact
rationals; ffmpeg's rounding of pixel counts to integers is the only
abstraction. -/

/-- Semantics of `force_original_aspect_ratio=decrease`: largest size inside the
requested box `w0 × h0` with the aspect ratio of the `iw × ih` input. -/
def foarDecrease (w0 h0 iw ih : ℚ) : ℚ × ℚ :=
  if w0 * ih ≤ h0 * iw then (w0, w0 * ih / iw) else (h0 * iw / ih, h0)

/-- Dimensions produced by the scale stage of the filter for an
`iw × ih` input and `tw × th` target. -/
def scaledDims (tw th iw ih : ℚ) : ℚ × ℚ :=
  foarDecrease (min tw iw) (min th ih) iw ih

/-- The pad stage `pad=tw:th:(ow-iw)/2:(oh-ih)/2`: output canvas is
exactly `tw × th`; ffmpeg errors out when the input exceeds the pad box
(`none`). -/
def padDims (tw th sw sh : ℚ) : Option (ℚ × ℚ) :=
  if sw ≤ tw ∧ sh ≤ th then some (tw, th) else none

/-- Output dimensions of the whole normalization filter chain
(`scale_filter` at ffmpeg_utils.py line 81). -/
def scale_filter (tw th iw ih : ℚ) : Option (ℚ × ℚ) :=
  padDims tw th (scaledDims tw th iw ih).1 (scaledDims tw th iw ih).2

/-! Embedding of `inject_silent_audio_if_needed` (`utils/video_utils.py` 42-99)

Stream-level model of a clip: its video duration and, when present, the
duration of its audio track.  When the audio probe finds a stream the
function returns its input unchanged; otherwise it synthesizes a silent
stereo track with `anullsrc ... -t video_duration` and muxes it on with
`-c:v copy -c:a aac -shortest`.  The two `ffmpeg` invocations run with
`check_error=True`, so on a nonzero return code `run_shell_command` raises
and no clip is produced; the model folds that into `none` (the
`return None` lines 75-77/94-96 after those calls are unreachable in the
Python, but either way no output clip exists). -/

structure ClipMedia where
  videoDuration : ℚ
  audioDuration : Option ℚ
deriving DecidableEq

/-- The source `anullsrc=r=48000:cl=stereo ... -t video_duration` (lines 65-72): a
silent track of exactly the requested duration. -/
def silent_track (videoDuration : ℚ) : ℚ := videoDuration

/-- Mux with `-shortest` (lines 79-88): both output streams end at the
shorter input's duration. -/
def mux_shortest (videoDur audioDur : ℚ) : ClipMedia :=
  ⟨min videoDur audioDur, some (min videoDur audioDur)⟩

/-- Stream-level behaviour of `inject_silent_audio_if_needed`. -/
def inject_silent_audio_if_needed (c : ClipMedia) (genOk muxOk : Bool) :
    Option ClipMedia :=
  match c.audioDuration with
  | some _ => some c
  | none =>
    if genOk then
      if muxOk then
        some (mux_shortest c.videoDuration (silent_track c.videoDuration))
      else none
    else none

/-! Pipeline subtitle stage (`pipeline.py` 189-211)

With `params.enable_subtitles` true the orchestrator generates an `.ass`
file and burns it in.  On a burn failure (`add_subtitles_to_video` returns
`False`) it logs
"Failed to burn subtitles. Final video will be without subtitles." and
continues with `final_video_output_path` still pointing at the
unsubtitled video, which is then published (lines 202-205, 211-230).  An
`.ass` generation failure is likewise skipped (line 207).  The stage never
aborts the run. -/

inductive FinalArtifact where
  | subtitled
  | unsubtitled
deriving DecidableEq

/-- Which artifact the pipeline goes on to publish, given whether
subtitles were requested, whether the `.ass` file was generated, and
whether the burn succeeded.  A `none` result would mean the run fails with
no artifact; the source never produces it at this stage. -/
def subtitle_stage (enableSubtitles assOk burnOk : Bool) : Option FinalArtifact :=
  if enableSubtitles then
    if assOk then
      if burnOk then some .subtitled
      else some .unsubtitled
    else some .unsubtitled
  else some .unsubtitled

/-! Path-level model of clip sourcing
(`media_processing/video_editor.py` 70-240)

A tiny filesystem: the set of existing files with their probed duration
and audio presence.  `source_visual_assets` downloads a clip, probes its
duration (dropping it on failure, line 115-118), runs
`inject_silent_audio_if_needed(downloaded, final_clip_path, dur)`, appends
the returned path to `sourced_files`, and deletes `downloaded_path`
(lines 120-126).  A final re-validation pass (lines 212-234) probes every
sourced path again and silently skips any whose probe fails.  The
over-length trim branch of that pass (lines 219-233) is not modelled: it
calls `run_shell_command`, which `video_editor.py` never imports, so
entering it raises `NameError`; the model covers clips no longer than
`max_clip_duration_s`. -/

structure FsEntry where
  path : String
  duration : ℚ
  hasAudio : Bool

/-- The files currently on disk. -/
abbrev FileSystem := List FsEntry

/-- Look up a path. -/
def fsFind? (fs : FileSystem) (p : String) : Option FsEntry :=
  fs.find? (fun e => e.path == p)

/-- Model of `os.path.exists`. -/
def fsExists (fs : FileSystem) (p : String) : Bool :=
  (fsFind? fs p).isSome

/-- Path-level `get_video_duration`: `None` for a missing file. -/
def fsDuration (fs : FileSystem) (p : String) : Option ℚ :=
  (fsFind? fs p).map (·.duration)

/-- Model of `os.remove`. -/
def fsRemove (fs : FileSystem) (p : String) : FileSystem :=
  fs.filter (fun e => !(e.path == p))

/-- Path-level behaviour of `inject_silent_audio_if_needed`
(video_utils.py 42-99): with a decodable audio stream present the input
path itself is returned and nothing is written to `output_path`
(lines 52-54); otherwise the muxed clip is written at `output_path` and
that path returned. -/
def inject_path (fs : FileSystem) (videoPath outputPath : String) :
    Option (FileSystem × String) :=
  match fsFind? fs videoPath with
  | none => none
  | some e =>
    if e.hasAudio then some (fs, videoPath)
    else some (fs ++ [⟨outputPath, e.duration, true⟩], outputPath)

/-- One downloaded clip's processing in `source_visual_assets`
(video_editor.py 111-126): probe, inject, append the returned path,
delete the downloaded file (also deleted on each failure branch). -/
def process_downloaded_clip (fs : FileSystem) (downloaded output : String) :
    FileSystem × List String :=
  match fsDuration fs downloaded with
  | none => (fsRemove fs downloaded, [])
  | some _ =>
    match inject_path fs downloaded output with
    | some (fs', p) => (fsRemove fs' downloaded, [p])
    | none => (fsRemove fs downloaded, [])

/-- The re-validation pass (video_editor.py 212-234): keep each sourced
path whose duration probe succeeds, skip the rest. -/
def validate_sourced (fs : FileSystem) : List String → List String
  | [] => []
  | p :: ps =>
    match fsDuration fs p with
    | none => validate_sourced fs ps
    | some _ => p :: validate_sourced fs ps

/-- Embedding of `source_visual_assets` restricted to one downloaded clip: per-clip
processing followed by the re-validation pass; returns the final
filesystem and the returned list of clip paths. -/
def source_visual_assets (fs : FileSystem) (downloaded output : String) :
    FileSystem × List String :=
  let r := process_downloaded_clip fs downloaded output
  (r.1, validate_sourced r.1 r.2)

/-! ## Helper lemmas -/

/-- The ceiling count of whole replays covers the shortfall:
`remaining ≤ num_loops * last`. -/
theorem le_num_loops_mul (remaining last : ℚ) (hpos : 0 < last) :
    remaining ≤ (num_loops remaining last : ℚ) * last := by
  have h1 : remaining / last ≤ ((num_loops remaining last : ℤ) : ℚ) :=
    Int.le_ceil _
  calc remaining = remaining / last * last := by field_simp
    _ ≤ ((num_loops remaining last : ℤ) : ℚ) * last :=
        mul_le_mul_of_nonneg_right h1 (le_of_lt hpos)

/-- When the clips fall short of the target and the last clip has positive
duration, the loop step appends exactly one clip of duration
`target - sum`. -/
theorem loopExtension_eq_of_short (ds : List ℚ) (target last : ℚ)
    (hlast : ds.getLast? = some last) (hpos : 0 < last)
    (hshort : ds.sum < target) :
    loopExtension ds target = [target - ds.sum] := by
  have hmin :
      min ((num_loops (target - ds.sum) last : ℚ) * last) (target - ds.sum) =
        target - ds.sum :=
    min_eq_right (le_num_loops_mul _ _ hpos)
  simp only [loopExtension, if_pos hshort, hlast, if_pos hpos, hmin]

/-- When the clips already reach the target, no loop clip is appended. -/
theorem loopExtension_eq_of_long (ds : List ℚ) (target : ℚ)
    (hlong : ¬ ds.sum < target) :
    loopExtension ds target = [] := by
  simp only [loopExtension, if_neg hlong]

/-- Both transition branches of `concatenate_videos` output the sequential
concatenation of the same clip list: on a nonempty input the duration is
the plain sum of the final clip list, whatever the transition string. -/
theorem concatenate_videos_cons (d : ℚ) (ds : List ℚ) (target : ℚ)
    (t : String) (loopOk : Bool) :
    concatenate_videos (d :: ds) target t loopOk =
      some (((d :: ds) ++
        (if loopOk then loopExtension (d :: ds) target else [])).sum) := by
  unfold concatenate_videos
  cases concatBranch t <;> simp

/-! ## Claim theorems -/

/-- Claim C1: The claim states that under `FADE`/`CROSSFADE` the composite
duration equals `sum - (N-1) * d` (±0.1s), with adjacent clips overlapping
by `d`.  The code never builds an overlap: every non-`'none'` transition
string takes the plain sequential-concat branch (ffmpeg_utils.py 154-172,
with an explicit warning that transitions are not implemented), so for the
spec's own Scenario A (clips of 10s/8s/12s, `d = 0.5`) the composite is
the full 30s sum, not `30 - 2*0.5 = 29` (±0.1). -/
theorem crossfade_shrinkage_never_applied :
    concatenate_videos [(10 : ℚ), 8, 12] 25 "Fade" true = some 30 ∧
    concatenate_videos [(10 : ℚ), 8, 12] 25 "Crossfade" true = some 30 ∧
    ¬ (|(30 : ℚ) - (10 + 8 + 12 - (3 - 1) * (1 / 2))| ≤ 1 / 10) := by
  have hext : loopExtension [(10 : ℚ), 8, 12] 25 = [] :=
    loopExtension_eq_of_long _ _ (by norm_num [List.sum_cons, List.sum_nil])
  refine ⟨?_, ?_, by norm_num⟩ <;>
    rw [concatenate_videos_cons] <;>
    norm_num [hext, List.sum_cons, List.sum_nil]

/-- Claim C2 counterexample: The claim says a composite shorter than the
target is loop-extended on the already-composited track until it reaches
`T`.  No such extension exists: the only correction in
`assemble_base_video` (video_editor.py 291-304) is a stream-copy
trim `-ss 0 -t T`, which cannot lengthen its input.  On the code's own
loop-failure branch ("Proceeding without looping", ffmpeg_utils.py 133) a
5s clip with target 60s yields a 5s final output, 55s away from the
target. -/
theorem short_composite_left_short :
    assemble_base_video [(5 : ℚ)] 60 .FADE false true = some 5 ∧
    ¬ (|(5 : ℚ) - 60| ≤ 1) := by
  constructor
  · unfold assemble_base_video
    rw [concatenate_videos_cons]
    norm_num [enforce_target_duration, trim_to, List.sum_cons, List.sum_nil,
      min_def, abs_of_nonpos]
  · norm_num

/-- Claim C2 amended: On runs where every external call succeeds
(`loopOk = trimOk = true`) and all clip durations are positive, the final
duration of `assemble_base_video` is within ±1.0s of the target: a
shortfall is filled *before* composition by looping the last clip inside
`concatenate_videos`, and an overrun of more than 1.0s is hard-trimmed to
the target. -/
theorem duration_convergence_on_successful_runs (d : ℚ) (ds : List ℚ)
    (target : ℚ) (tm : VideoTransitionMode)
    (hpos : ∀ x ∈ d :: ds, 0 < x) :
    ∃ r, assemble_base_video (d :: ds) target tm true true = some r ∧
      |r - target| ≤ 1 := by
  have hconcat : concatenate_videos (d :: ds) target tm.value true =
      some (((d :: ds) ++ loopExtension (d :: ds) target).sum) := by
    rw [concatenate_videos_cons]; norm_num
  by_cases hshort : (d :: ds).sum < target
  · have hne : (d :: ds) ≠ [] := by simp
    have hlast := List.getLast?_eq_getLast_of_ne_nil hne
    have hlpos : 0 < (d :: ds).getLast hne := hpos _ (List.getLast_mem hne)
    have hext := loopExtension_eq_of_short _ target _ hlast hlpos hshort
    have hsum : ((d :: ds) ++ loopExtension (d :: ds) target).sum = target := by
      rw [hext]
      simp only [List.sum_append, List.sum_cons, List.sum_nil]
      ring
    refine ⟨target, ?_, by simp⟩
    unfold assemble_base_video
    rw [hconcat, hsum]
    show some (enforce_target_duration target target true) = some target
    unfold enforce_target_duration
    norm_num
  · have hext := loopExtension_eq_of_long _ target hshort
    have hge : target ≤ (d :: ds).sum := le_of_not_lt hshort
    have hsum : ((d :: ds) ++ loopExtension (d :: ds) target).sum =
        (d :: ds).sum := by
      rw [hext, List.append_nil]
    by_cases habs : 1 < |(d :: ds).sum - target|
    · refine ⟨target, ?_, by simp⟩
      unfold assemble_base_video
      rw [hconcat, hsum]
      show some (enforce_target_duration ((d :: ds).sum) target true) =
        some target
      unfold enforce_target_duration trim_to
      rw [if_pos habs, if_pos rfl, min_eq_right hge]
    · refine ⟨(d :: ds).sum, ?_, le_of_not_lt habs⟩
      unfold assemble_base_video
      rw [hconcat, hsum]
      show some (enforce_target_duration ((d :: ds).sum) target true) =
        some ((d :: ds).sum)
      unfold enforce_target_duration
      rw [if_neg habs]

/-- Witness for C2 (amended): one 5s clip, target 60s, fade requested. -/
theorem duration_convergence_on_successful_runs_witness :
    ∃ r, assemble_base_video [(5 : ℚ)] 60 .FADE true true = some r ∧
      |r - 60| ≤ 1 :=
  duration_convergence_on_successful_runs 5 [] 60 .FADE
    (by intro x hx; rw [List.mem_singleton] at hx; rw [hx]; norm_num)

/-- Claim C3: When the summed clip durations fall short of the target and
the last clip's re-probed duration is positive, the loop step appends one
clip: the last clip replayed `ceil(shortfall / last)` whole times and
trimmed to exactly the shortfall, so the resulting total equals the target
exactly; the original clips are passed through unchanged ahead of it. -/
theorem reconciler_loops_only_last_clip (ds : List ℚ) (target last : ℚ)
    (hlast : ds.getLast? = some last) (hpos : 0 < last)
    (hshort : ds.sum < target) :
    loopExtension ds target =
      [min ((num_loops (target - ds.sum) last : ℚ) * last)
        (target - ds.sum)] ∧
    loopExtension ds target = [target - ds.sum] ∧
    (ds ++ loopExtension ds target).sum = target := by
  have h2 := loopExtension_eq_of_short ds target last hlast hpos hshort
  refine ⟨?_, h2, ?_⟩
  · rw [h2, min_eq_right (le_num_loops_mul _ _ hpos)]
  · rw [h2, List.sum_append, List.sum_cons, List.sum_nil]; ring

/-- Witness for C3: one 5s clip, target 60s. -/
theorem reconciler_loops_only_last_clip_witness :
    loopExtension [(5 : ℚ)] 60 =
      [min ((num_loops (60 - [(5 : ℚ)].sum) 5 : ℚ) * 5)
        (60 - [(5 : ℚ)].sum)] ∧
    loopExtension [(5 : ℚ)] 60 = [60 - [(5 : ℚ)].sum] ∧
    (([(5 : ℚ)] ++ loopExtension [(5 : ℚ)] 60).sum = 60) :=
  reconciler_loops_only_last_clip [5] 60 5 rfl (by norm_num)
    (by norm_num [List.sum_cons, List.sum_nil])

/-- Claim C9: The timeline `concatenate_videos` produces is independent of
the transition argument: the output duration is the same for any two
transition strings, and on a nonempty input it is the plain sum of the
final clip list (no overlap between clips).  The branches differ only in
codec: exactly the string `'none'` (case-sensitive) stream-copies, while
`'Fade'`, `'Crossfade'`, `'Slide'`, and the `'None'` that
`assemble_base_video` passes from `VideoTransitionMode.NONE.value` all
take the re-encoding branch. -/
theorem transition_string_only_selects_codec :
    (∀ (durations : List ℚ) (target : ℚ) (loopOk : Bool) (t₁ t₂ : String),
      concatenate_videos durations target t₁ loopOk =
        concatenate_videos durations target t₂ loopOk) ∧
    (∀ (d : ℚ) (ds : List ℚ) (target : ℚ) (t : String) (loopOk : Bool),
      concatenate_videos (d :: ds) target t loopOk =
        some (((d :: ds) ++
          (if loopOk then loopExtension (d :: ds) target else [])).sum)) ∧
    concatBranch "none" = ConcatBranch.streamCopy ∧
    concatBranch VideoTransitionMode.NONE.value = ConcatBranch.reencode ∧
    concatBranch VideoTransitionMode.FADE.value = ConcatBranch.reencode ∧
    concatBranch VideoTransitionMode.CROSSFADE.value =
      ConcatBranch.reencode ∧
    concatBranch VideoTransitionMode.SLIDE.value = ConcatBranch.reencode := by
  refine ⟨?_, concatenate_videos_cons, by decide, by decide, by decide,
    by decide, by decide⟩
  intro durations target loopOk t₁ t₂
  unfold concatenate_videos
  cases h1 : concatBranch t₁ <;> cases h2 : concatBranch t₂ <;> simp

/-- The scale stage fits the picture inside the target box, never
upscales, and preserves the input aspect ratio. -/
theorem scaledDims_bounds (tw th iw ih : ℚ)
    (hiw : 0 < iw) (hih : 0 < ih) :
    (scaledDims tw th iw ih).1 ≤ tw ∧ (scaledDims tw th iw ih).2 ≤ th ∧
    (scaledDims tw th iw ih).1 ≤ iw ∧ (scaledDims tw th iw ih).2 ≤ ih ∧
    (scaledDims tw th iw ih).1 * ih = (scaledDims tw th iw ih).2 * iw := by
  unfold scaledDims foarDecrease
  have hw0tw : min tw iw ≤ tw := min_le_left _ _
  have hw0iw : min tw iw ≤ iw := min_le_right _ _
  have hh0th : min th ih ≤ th := min_le_left _ _
  have hh0ih : min th ih ≤ ih := min_le_right _ _
  by_cases h : min tw iw * ih ≤ min th ih * iw
  · rw [if_pos h]
    refine ⟨hw0tw, ?_, hw0iw, ?_, by field_simp⟩
    · have hle : min tw iw * ih / iw ≤ min th ih := by
        rw [div_le_iff₀ hiw]; exact h
      exact hle.trans hh0th
    · rw [div_le_iff₀ hiw]
      calc min tw iw * ih ≤ iw * ih :=
            mul_le_mul_of_nonneg_right hw0iw (le_of_lt hih)
        _ = ih * iw := mul_comm _ _
  · rw [if_neg h]
    push_neg at h
    refine ⟨?_, hh0th, ?_, hh0ih, by field_simp⟩
    · have hle : min th ih * iw / ih ≤ min tw iw := by
        rw [div_le_iff₀ hih]
        calc min th ih * iw ≤ min tw iw * ih := le_of_lt h
          _ = min tw iw * ih := rfl
      exact hle.trans hw0tw
    · rw [div_le_iff₀ hih]
      calc min th ih * iw ≤ ih * iw :=
            mul_le_mul_of_nonneg_right hh0ih (le_of_lt hiw)
        _ = iw * ih := mul_comm _ _

/-- Claim C4 counterexample: The claim says the normalizer scales to
*cover* the target box and center-crops, never letterboxing.  The filter
actually scales to *fit* (`force_original_aspect_ratio=decrease`) and
pads: a 2160×1080 input normalized to a 1080×1920 portrait target is
scaled to 1080×540 — far from covering the 1920-pixel target height — and
the pad stage fills the remaining 1380 rows with bars. -/
theorem normalizer_letterboxes_portrait_target :
    scaledDims 1080 1920 2160 1080 = (1080, 540) ∧
    ¬ (1920 ≤ (scaledDims 1080 1920 2160 1080).2) ∧
    scale_filter 1080 1920 2160 1080 = some (1080, 1920) := by
  have hs : scaledDims 1080 1920 2160 1080 = (1080, 540) := by
    unfold scaledDims foarDecrease
    norm_num
  refine ⟨hs, by rw [hs]; norm_num, ?_⟩
  unfold scale_filter padDims
  rw [hs]
  norm_num

/-- Claim C4 amended: For every input with positive dimensions the
normalizer scales the clip to *fit inside* the target box (never beyond
its input size) preserving the aspect ratio exactly, then center-pads
(letterboxes) to the exact target dimensions; it never crops — the pad
stage only succeeds because the scaled picture is no larger than the
target box, and the padding offsets center it. -/
theorem normalizer_fit_and_pad (tw th iw ih : ℚ)
    (hiw : 0 < iw) (hih : 0 < ih) :
    (scaledDims tw th iw ih).1 ≤ tw ∧ (scaledDims tw th iw ih).2 ≤ th ∧
    (scaledDims tw th iw ih).1 ≤ iw ∧ (scaledDims tw th iw ih).2 ≤ ih ∧
    (scaledDims tw th iw ih).1 * ih = (scaledDims tw th iw ih).2 * iw ∧
    scale_filter tw th iw ih = some (tw, th) := by
  obtain ⟨h1, h2, h3, h4, h5⟩ := scaledDims_bounds tw th iw ih hiw hih
  refine ⟨h1, h2, h3, h4, h5, ?_⟩
  unfold scale_filter padDims
  rw [if_pos ⟨h1, h2⟩]

/-- Witness for C4 (amended): a 1920×1080 landscape input against the
1080×1920 portrait target. -/
theorem normalizer_fit_and_pad_witness :
    (scaledDims 1080 1920 1920 1080).1 ≤ 1080 ∧
    (scaledDims 1080 1920 1920 1080).2 ≤ 1920 ∧
    (scaledDims 1080 1920 1920 1080).1 ≤ 1920 ∧
    (scaledDims 1080 1920 1920 1080).2 ≤ 1080 ∧
    (scaledDims 1080 1920 1920 1080).1 * 1080 =
      (scaledDims 1080 1920 1920 1080).2 * 1920 ∧
    scale_filter 1080 1920 1920 1080 = some (1080, 1920) :=
  normalizer_fit_and_pad 1080 1920 1920 1080 (by norm_num) (by norm_num)

/-- Claim C5: For every input clip with positive probed dimensions, the
normalization filter produces exactly the `tw × th` target resolution:
the scale stage emits a picture no larger than the target box, so the
trailing `pad=tw:th` stage always succeeds and its canvas is the target
box itself.  Every clip entering the concat step therefore has identical
width×height. -/
theorem resolution_invariant (tw th iw ih : ℚ)
    (hiw : 0 < iw) (hih : 0 < ih) :
    scale_filter tw th iw ih = some (tw, th) := by
  obtain ⟨h1, h2, _, _, _⟩ := scaledDims_bounds tw th iw ih hiw hih
  unfold scale_filter padDims
  rw [if_pos ⟨h1, h2⟩]

/-- Witness for C5: a 640×480 input against the 1080×1920 target. -/
theorem resolution_invariant_witness :
    scale_filter 1080 1920 640 480 = some (1080, 1920) :=
  resolution_invariant 1080 1920 640 480 (by norm_num) (by norm_num)

/-- Claim C6: For a clip lacking an audio stream, normalization synthesizes
a silent stereo track of exactly the clip's video duration (hence within
the claimed 0.05s) and muxes it on; and whenever
`inject_silent_audio_if_needed` produces a clip at all, that clip has an
audio stream. -/
theorem audio_completeness (c : ClipMedia) (hno : c.audioDuration = none) :
    inject_silent_audio_if_needed c true true =
      some ⟨c.videoDuration, some c.videoDuration⟩ ∧
    |silent_track c.videoDuration - c.videoDuration| ≤ 1 / 20 ∧
    (∀ (d : ClipMedia) (g m : Bool) (out : ClipMedia),
      inject_silent_audio_if_needed d g m = some out →
        out.audioDuration.isSome) := by
  refine ⟨?_, ?_, ?_⟩
  · unfold inject_silent_audio_if_needed
    rw [hno]
    simp [mux_shortest, silent_track]
  · unfold silent_track
    norm_num
  · intro d g m out hout
    unfold inject_silent_audio_if_needed at hout
    cases hd : d.audioDuration with
    | some a =>
      rw [hd] at hout
      cases hout
      rw [hd]
      rfl
    | none =>
      rw [hd] at hout
      cases g with
      | false => simp at hout
      | true =>
        cases m with
        | false => simp at hout
        | true =>
          simp only [if_true] at hout
          cases hout
          rfl

/-- Witness for C6: a 10s clip with no audio track. -/
theorem audio_completeness_witness :
    inject_silent_audio_if_needed ⟨10, none⟩ true true =
      some ⟨(10 : ℚ), some 10⟩ ∧
    |silent_track (10 : ℚ) - 10| ≤ 1 / 20 ∧
    (∀ (d : ClipMedia) (g m : Bool) (out : ClipMedia),
      inject_silent_audio_if_needed d g m = some out →
        out.audioDuration.isSome) :=
  audio_completeness ⟨10, none⟩ rfl

/-- Claim C7: The claim (and the spec) requires the run to fail when
subtitles were requested but the burn step fails.  The orchestrator
instead logs the failure and publishes the unsubtitled video
(pipeline.py 202-205): with subtitles enabled, the `.ass` file generated,
and the burn failing, the stage still yields an artifact — the
unsubtitled one. -/
theorem subtitle_burn_failure_publishes_unsubtitled :
    subtitle_stage true true false = some FinalArtifact.unsubtitled := rfl

/-- Claim C8: Probing a missing or corrupt media file returns `None` rather
than raising: both probes run `ffprobe` with `check_error=False` (which
reports a nonzero return code instead of raising) and catch the
`ValueError` of the output parse, so every failure path of
`get_video_duration` and `get_video_dimensions` yields `None`. -/
theorem probe_failures_return_none (s t : String)
    (hs : parseFloat? s.data = none) (ht : parseDims? t.data = none) :
    get_video_duration .missing = none ∧
    get_video_duration .cmdFail = none ∧
    get_video_duration (.output s) = none ∧
    get_video_dimensions .missing = none ∧
    get_video_dimensions .cmdFail = none ∧
    get_video_dimensions (.output t) = none :=
  ⟨rfl, rfl, hs, rfl, rfl, ht⟩

/-- Witness for C8: ffprobe printing `N/A` for the duration and garbage
for the dimensions. -/
theorem probe_failures_return_none_witness :
    get_video_duration (.output "N/A") = none ∧
    get_video_dimensions (.output "WxH") = none := by
  have h := probe_failures_return_none "N/A" "WxH" (by decide) (by decide)
  exact ⟨h.2.2.1, h.2.2.2.2.2⟩

/-- Deleting a path removes every directory entry for it. -/
theorem fsFind?_fsRemove_self (fs : FileSystem) (p : String) :
    fsFind? (fsRemove fs p) p = none := by
  rw [fsFind?, List.find?_eq_none]
  intro e he
  rw [fsRemove, List.mem_filter] at he
  simpa using he.2

/-- The re-validation pass only returns paths that exist on disk. -/
theorem mem_validate_sourced (fs : FileSystem) (ps : List String)
    (p : String) (hmem : p ∈ validate_sourced fs ps) :
    fsExists fs p = true := by
  induction ps with
  | nil => simp [validate_sourced] at hmem
  | cons q qs ih =>
    unfold validate_sourced at hmem
    cases hq : fsDuration fs q with
    | none =>
      rw [hq] at hmem
      exact ih hmem
    | some dur =>
      rw [hq] at hmem
      rcases List.mem_cons.mp hmem with h | h
      · subst h
        unfold fsExists
        unfold fsDuration at hq
        cases hf : fsFind? fs p with
        | none => rw [hf] at hq; simp at hq
        | some e => simp [fsExists, hf]
      · exact ih h

/-- Claim C10 counterexample: On a filesystem holding one downloaded clip
`d0` that already has audio, `inject_path` returns `d0` itself with
nothing written, the per-clip step appends `d0` to the intermediate list
and then deletes the file — but the final returned list is empty, not a
list containing a dangling path: the re-validation pass drops `d0`
because its duration probe now fails. -/
theorem preexisting_audio_clip_dropped_concrete :
    inject_path [⟨"d0", 7, true⟩] "d0" "o0" =
      some ([⟨"d0", 7, true⟩], "d0") ∧
    (process_downloaded_clip [⟨"d0", 7, true⟩] "d0" "o0").2 = ["d0"] ∧
    fsExists (process_downloaded_clip [⟨"d0", 7, true⟩] "d0" "o0").1 "d0" =
      false ∧
    (source_visual_assets [⟨"d0", 7, true⟩] "d0" "o0").2 = [] :=
  ⟨rfl, rfl, rfl, rfl⟩

/-- Claim C10 amended: When the downloaded clip already has a decodable
audio stream, `inject_silent_audio_if_needed` returns its input path
unchanged and writes nothing to `output_path`; `source_visual_assets`
then deletes that file right after appending its path to the intermediate
list — but the final re-validation pass drops every path whose duration
probe fails, so such a clip is silently dropped and the returned list
never contains a path to a file that no longer exists. -/
theorem preexisting_audio_clip_never_returned (e : FsEntry)
    (fs : FileSystem) (out : String)
    (hfind : fsFind? fs e.path = some e) (haud : e.hasAudio = true) :
    inject_path fs e.path out = some (fs, e.path) ∧
    (process_downloaded_clip fs e.path out).2 = [e.path] ∧
    fsExists (process_downloaded_clip fs e.path out).1 e.path = false ∧
    (source_visual_assets fs e.path out).2 = [] ∧
    (∀ (g : FileSystem) (ps : List String) (p : String),
      p ∈ validate_sourced g ps → fsExists g p = true) := by
  have hinj : inject_path fs e.path out = some (fs, e.path) := by
    unfold inject_path
    rw [hfind]
    simp [haud]
  have hdur : fsDuration fs e.path = some e.duration := by
    unfold fsDuration
    rw [hfind]
    rfl
  have hproc : process_downloaded_clip fs e.path out =
      (fsRemove fs e.path, [e.path]) := by
    unfold process_downloaded_clip
    rw [hdur, hinj]
  refine ⟨hinj, by rw [hproc], ?_, ?_, mem_validate_sourced⟩
  · rw [hproc]
    unfold fsExists
    rw [fsFind?_fsRemove_self]
    rfl
  · unfold source_visual_assets
    rw [hproc]
    unfold validate_sourced fsDuration
    rw [fsFind?_fsRemove_self]
    rfl

/-- Witness for C10 (amended): the concrete one-clip filesystem. -/
theorem preexisting_audio_clip_never_returned_witness :
    inject_path [⟨"d0", 7, true⟩] "d0" "o0" =
      some ([⟨"d0", 7, true⟩], "d0") ∧
    (process_downloaded_clip [⟨"d0", 7, true⟩] "d0" "o0").2 = ["d0"] ∧
    fsExists (process_downloaded_clip [⟨"d0", 7, true⟩] "d0" "o0").1 "d0" =
      false ∧
    (source_visual_assets [⟨"d0", 7, true⟩] "d0" "o0").2 = [] ∧
    (∀ (g : FileSystem) (ps : List String) (p : String),
      p ∈ validate_sourced g ps → fsExists g p = true) :=
  preexisting_audio_clip_never_returned ⟨"d0", 7, true⟩
    [⟨"d0", 7, true⟩] "o0" rfl rfl

end VideoCore
